import Mathlib

/-!
Verification development for the Q_Project backtesting repository.

Shallow embeddings of the Python modules under src/:
  src/execution/base_executor.py      (BaseExecutor)
  src/risk_management/base_risk_manager.py (BaseRiskManager)
  src/strategies/sma_strategy.py      (SMAStrategy)
Python floats are modelled as exact rationals; where a float NaN can
arise it is modelled explicitly with an Option type, and values whose
source computes a square root are modelled over the reals.
-/

set_option linter.unusedVariables false

namespace QProject

/-! ## Executor state (BaseExecutor) -/

/-- Account state held by BaseExecutor: available cash and the current
signed position (fields `_cash` and `_position` in the source). -/
structure ExecState where
  cash : ℚ
  pos : ℚ
deriving DecidableEq, Repr

/-- Record returned by BaseExecutor.get_portfolio_status. -/
structure PortfolioStatus where
  pos : ℚ
  cash : ℚ
  total_value : ℚ
deriving DecidableEq, Repr

/-- Embedding of BaseExecutor.get_portfolio_status: the source computes
total_value as self._cash + abs(self._position) * current_price, where
current_price is the value returned by the abstract get_current_price
(taken here as a parameter). -/
def get_portfolio_status (st : ExecState) (current_price : ℚ) : PortfolioStatus :=
  { pos := st.pos
    cash := st.cash
    total_value := st.cash + |st.pos| * current_price }

/-- Status recorded for one row of BaseExecutor.execute_signals: the row
produced an executed order, a failed order (execute_order raised), or the
row was skipped (signal 0 or timestamp without a price). -/
inductive ExecStatus where
  | executed
  | failed
  | skipped
deriving DecidableEq, Repr

/-- One row of the signals frame consumed by execute_signals, together
with the price lookup: the signal value, the position column read by the
loop, whether the timestamp is present in the prices index, and the close
price found there when it is. -/
structure SignalRow where
  signal : ℤ
  pos : ℚ
  has_price : Bool
  price : ℚ
deriving DecidableEq, Repr

/-- Embedding of one iteration of the loop in BaseExecutor.execute_signals.
The source processes a row only when signal is nonzero and the timestamp is
in the prices index; quantity is abs(position) and side is buy when
signal is positive, sell otherwise.  The abstract execute_order is modelled
by the flag fillOk: when it fills, the source appends an executed result
and updates cash by minus (buy) or plus (sell) quantity * price and the
position by plus or minus the quantity; when it raises, a failed result is
appended and the state is untouched.  No validation of quantity, price or
available cash occurs anywhere in this path. -/
def execStep (fillOk : Bool) (st : ExecState) (row : SignalRow) : ExecState × ExecStatus :=
  if row.signal ≠ 0 ∧ row.has_price then
    let q := |row.pos|
    if fillOk then
      if 0 < row.signal then
        (⟨st.cash - q * row.price, st.pos + q⟩, ExecStatus.executed)
      else
        (⟨st.cash + q * row.price, st.pos - q⟩, ExecStatus.executed)
    else (st, ExecStatus.failed)
  else (st, ExecStatus.skipped)

/-- Embedding of BaseExecutor.execute_signals: the loop over the signal
rows, threading the account state and collecting one status per row. -/
def execute_signals (fillOk : Bool) (st : ExecState) : List SignalRow → ExecState × List ExecStatus
  | [] => (st, [])
  | row :: rest =>
    let r := execStep fillOk st row
    let out := execute_signals fillOk r.1 rest
    (out.1, r.2 :: out.2)

/-- Cash contribution of one row under a filling execute_order, read off
from the two update branches of the source loop. -/
def rowCashDelta (row : SignalRow) : ℚ :=
  if row.signal ≠ 0 ∧ row.has_price then
    if 0 < row.signal then -(|row.pos| * row.price) else |row.pos| * row.price
  else 0

/-- Position contribution of one row under a filling execute_order. -/
def rowPosDelta (row : SignalRow) : ℚ :=
  if row.signal ≠ 0 ∧ row.has_price then
    if 0 < row.signal then |row.pos| else -(|row.pos|)
  else 0

/-- Status a row receives under a filling execute_order. -/
def rowStatus (row : SignalRow) : ExecStatus :=
  if row.signal ≠ 0 ∧ row.has_price then ExecStatus.executed else ExecStatus.skipped

/-! ## Risk manager (BaseRiskManager) -/

/-- Action decided by BaseRiskManager.check_stop_loss_take_profit. -/
inductive SLAction where
  | noneAction
  | stopLoss
  | takeProfit
deriving DecidableEq, Repr

/-- Embedding of BaseRiskManager.check_stop_loss_take_profit with the
configured thresholds sl (self._stop_loss) and tp (self._take_profit).
The source returns action none with reason no_position for a zero
position; otherwise it computes the directional return rate, then takes
the stop-loss branch when return_rate is at most minus sl, else the
take-profit branch when return_rate is at least tp, else none. -/
def check_stop_loss_take_profit (sl tp : ℚ) (entry_price current_price position : ℚ) :
    SLAction × String :=
  if position = 0 then (SLAction.noneAction, "no_position")
  else
    let return_rate :=
      if 0 < position then (current_price - entry_price) / entry_price
      else (entry_price - current_price) / entry_price
    if return_rate ≤ -sl then (SLAction.stopLoss, "stop loss hit")
    else if tp ≤ return_rate then (SLAction.takeProfit, "take profit hit")
    else (SLAction.noneAction, "conditions_not_met")

/-- Embedding of the unguarded Python float division used by
BaseRiskManager.check_position_limits: dividing by zero raises
ZeroDivisionError, every other division returns the exact quotient. -/
def pyDiv (a b : ℚ) : Except String ℚ :=
  if b = 0 then Except.error "ZeroDivisionError" else Except.ok (a / b)

/-- Configured position limits read from config key position_limits; a
missing entry is modelled as none and replaced by the source defaults at
the lookup sites. -/
structure PositionLimits where
  max_position : Option ℚ
  max_position_pct : Option ℚ
deriving DecidableEq, Repr

/-- Embedding of BaseRiskManager.check_position_limits: the source first
flags a proposal whose absolute value exceeds max_position (defaulting to
the portfolio value), then unconditionally computes
abs(proposed_position) / portfolio_value and flags a proposal whose
fraction exceeds max_position_pct (defaulting to 1), overwriting the
reason; it returns the pair (allowed, result). -/
def check_position_limits (lims : PositionLimits) (proposed_position portfolio_value : ℚ) :
    Except String (Bool × String) :=
  let max_position_value := lims.max_position.getD portfolio_value
  let max_position_pct := lims.max_position_pct.getD 1
  let r1 : Bool × String :=
    if max_position_value < |proposed_position| then
      (false, "exceeds max position amount")
    else (true, "position_within_limits")
  match pyDiv |proposed_position| portfolio_value with
  | Except.error e => Except.error e
  | Except.ok position_pct =>
    if max_position_pct < position_pct then
      Except.ok (false, "exceeds max position pct")
    else
      Except.ok r1

/-! ## Series statistics (BaseRiskManager metrics helpers) -/

/-- Arithmetic mean of a list, as computed by pandas Series.mean on a
series of exact rationals (only ever applied to nonempty lists here). -/
def listMean (xs : List ℚ) : ℚ := xs.sum / (xs.length : ℚ)

/-- Sample variance with one delta degree of freedom, the square of the
pandas Series.std default.  A series of length at most 1 has standard
deviation NaN in pandas, modelled as none. -/
def sampleVar (xs : List ℚ) : Option ℚ :=
  if xs.length ≤ 1 then none
  else some (((xs.map (fun x => (x - listMean xs) ^ 2)).sum) / ((xs.length : ℚ) - 1))

/-- Embedding of the body of BaseRiskManager.calculate_sharpe_ratio as a
function of a returns series and the risk_free_rate parameter (source
default 0.02).  The source guard returns the float 0.0 when the series is
empty or its standard deviation equals 0; the standard deviation of a
rational series is zero exactly when the sample variance is zero, and the
NaN deviation of a length-1 series compares unequal to 0, so the guard is
the test modelled here.  Otherwise the source returns
mean(returns - risk_free_rate / 252) / std(returns) * sqrt 252, a real
number because of the square roots; the NaN result of a length-1 series
is modelled as none. -/
noncomputable def calculate_sharpe (returns : List ℚ) (risk_free_rate : ℚ) : Option ℝ :=
  if returns.isEmpty ∨ sampleVar returns = some 0 then some 0
  else
    (sampleVar returns).map fun v : ℚ =>
      ((listMean (returns.map (fun r => r - risk_free_rate / 252)) : ℚ) : ℝ) /
        Real.sqrt (v : ℝ) * Real.sqrt 252

/-- Running peak of a value series: pandas expanding().max() at index i is
the maximum of the first i+1 values. -/
def runningPeak (values : List ℚ) (i : ℕ) : ℚ :=
  match values.take (i + 1) with
  | [] => 0
  | h :: t => t.foldl max h

/-- Drawdown column of BaseRiskManager._calculate_max_drawdown at index i:
(values - peak) / peak evaluated at i. -/
def drawdownAt (values : List ℚ) (i : ℕ) : ℚ :=
  (values.getD i 0 - runningPeak values i) / runningPeak values i

/-- Embedding of BaseRiskManager._calculate_max_drawdown: 0 for an empty
series, otherwise the absolute value of the minimum of the drawdown
column. -/
def calculate_max_drawdown (values : List ℚ) : ℚ :=
  match values with
  | [] => 0
  | _ :: _ =>
    |((List.range values.length).map (drawdownAt values)).foldl min (drawdownAt values 0)|

/-- Modelled from the claim wording for comparison: the maximum over t of
(peak_up_to_t - value_t) / peak_up_to_t. -/
def max_drawdown_spec (values : List ℚ) : ℚ :=
  match values with
  | [] => 0
  | _ :: _ =>
    ((List.range values.length).map
        (fun i => (runningPeak values i - values.getD i 0) / runningPeak values i)).foldl
      max ((runningPeak values 0 - values.getD 0 0) / runningPeak values 0)

/-- Linear-interpolation quantile of a series, as computed by pandas
Series.quantile with the default interpolation: with s the ascending sort
and h = q * (n - 1), the result interpolates between the entries at
positions floor h and floor h + 1. -/
def listQuantile (xs : List ℚ) (q : ℚ) : ℚ :=
  let s := xs.mergeSort (fun a b => a ≤ b)
  let h := q * ((xs.length : ℚ) - 1)
  let i := h.floor.toNat
  let lo := s.getD i 0
  let hi := s.getD (i + 1) lo
  lo + (h - (i : ℚ)) * (hi - lo)

/-- Embedding of BaseRiskManager.calculate_var: 0 for an empty returns
series, otherwise the absolute value of the configured quantile. -/
def calculate_var (returns : List ℚ) (confidence_level : ℚ) : ℚ :=
  if returns = [] then 0 else |listQuantile returns confidence_level|

/-! ## get_risk_metrics and the bound-method call of calculate_sharpe_ratio -/

/-- Python runtime values that can reach the returns parameter of
calculate_sharpe_ratio: a numeric series, or the BaseRiskManager instance
itself (the source declares the method without a self parameter, so a
call through the instance binds the instance to the first parameter). -/
inductive PyObj where
  | series (xs : List ℚ)
  | riskManagerObj
deriving DecidableEq, Repr

/-- Attribute lookup returns_arg.empty, the first expression the body of
calculate_sharpe_ratio evaluates: a pandas series has the attribute, a
BaseRiskManager instance does not and the lookup raises AttributeError. -/
def pyEmptyAttr : PyObj → Except String Bool
  | PyObj.series xs => Except.ok xs.isEmpty
  | PyObj.riskManagerObj =>
      Except.error "AttributeError: BaseRiskManager object has no attribute empty"

/-- Call semantics of the instance call
self.calculate_sharpe_ratio(returns): because the source defines the
method without self, the bound call passes the instance as returns_arg
and the series as the risk_free_rate parameter.  The body first evaluates
returns_arg.empty; for a series argument the call proceeds to the pure
computation with the source default rate 0.02 when no rational rate was
passed. -/
noncomputable def calculate_sharpe_call (returns_arg : PyObj) (rate_arg : Option ℚ) :
    Except String (Option ℝ) :=
  match pyEmptyAttr returns_arg with
  | Except.error e => Except.error e
  | Except.ok _ =>
    match returns_arg with
    | PyObj.series xs => Except.ok ( calculate_sharpe xs (rate_arg.getD (1 / 50)))
    | PyObj.riskManagerObj =>
        Except.error "unreachable: the attribute lookup already raised"

/-- Per-bar returns of a value series as computed by
pct_change().dropna(): each value divided by its predecessor, minus 1,
with the undefined first entry dropped. -/
def pct_change_dropna (values : List ℚ) : List ℚ :=
  (values.zip (values.drop 1)).map (fun p => p.2 / p.1 - 1)

/-- Metrics record built by BaseRiskManager.get_risk_metrics; volatility
and sharpe involve square roots of possibly-NaN standard deviations and
are modelled as optional reals. -/
structure RiskMetrics where
  volatility : Option ℝ
  max_drawdown : ℚ
  var_95 : ℚ
  var_99 : ℚ
  sharpe : Option ℝ

/-- Embedding of BaseRiskManager.get_risk_metrics over the value column
of the portfolio history: an empty history returns the empty dict
(modelled as none); otherwise the metrics dict is evaluated entry by
entry, and its last entry calls self.calculate_sharpe_ratio(returns),
the bound call that passes the instance as the returns argument. -/
noncomputable def get_risk_metrics (history : List ℚ) : Except String (Option RiskMetrics) :=
  if history.isEmpty then Except.ok none
  else
    let returns := pct_change_dropna history
    let vol : Option ℝ := (sampleVar returns).map fun v : ℚ => Real.sqrt (v : ℝ) * Real.sqrt 252
    let mdd := calculate_max_drawdown history
    let v95 := calculate_var returns (1 / 20)
    let v99 := calculate_var returns (1 / 100)
    match calculate_sharpe_call PyObj.riskManagerObj none with
    | Except.error e => Except.error e
    | Except.ok sharpe => Except.ok (some ⟨vol, mdd, v95, v99, sharpe⟩)

/-! ## SMA strategy (SMAStrategy) -/

/-- Value stored under a config key: an integer, or a value of any other
Python type (floats, strings, and so on), which fails the isinstance int
checks of the validator. -/
inductive ConfigVal where
  | intv (n : ℤ)
  | otherv
deriving DecidableEq, Repr

/-- Configuration dict of SMAStrategy restricted to the two keys its
validator inspects; a missing key is none. -/
structure SMAConfig where
  short_period : Option ConfigVal
  long_period : Option ConfigVal
deriving DecidableEq, Repr

/-- Embedding of SMAStrategy._validate_config, which BaseStrategy's
constructor invokes, so construction succeeds exactly when this check
does.  The source checks in order: presence of short_period, presence of
long_period, short_period a positive int, long_period a positive int,
and short_period strictly below long_period, raising ValueError at the
first failure (the final step of the source fills in the optional
position_weight default, which raises nothing and is omitted here). -/
def sma_validate_config (cfg : SMAConfig) : Except String Unit :=
  match cfg.short_period with
  | none => Except.error "missing required config key short_period"
  | some sp =>
    match cfg.long_period with
    | none => Except.error "missing required config key long_period"
    | some lp =>
      match sp with
      | ConfigVal.otherv => Except.error "short period must be a positive integer"
      | ConfigVal.intv s =>
        if s ≤ 0 then Except.error "short period must be a positive integer"
        else
          match lp with
          | ConfigVal.otherv => Except.error "long period must be a positive integer"
          | ConfigVal.intv l =>
            if l ≤ 0 then Except.error "long period must be a positive integer"
            else if l ≤ s then Except.error "short period must be below long period"
            else Except.ok ()

/-- Trailing rolling mean with window w and min_periods 1, as computed by
Series.rolling(window=w, min_periods=1).mean() at row i: the mean of the
last min(w, i+1) of the first i+1 values. -/
def windowMean (w : ℕ) (xs : List ℚ) (i : ℕ) : ℚ :=
  let win := (xs.take (i + 1)).drop (i + 1 - w)
  win.sum / (win.length : ℚ)

/-- Difference column sma_diff of SMAStrategy.generate_signals: short
rolling mean minus long rolling mean of the close series. -/
def smaDiff (sp lp : ℕ) (closes : List ℚ) (i : ℕ) : ℚ :=
  windowMean sp closes i - windowMean lp closes i

/-- Signal at one bar, following the two np.where passes of the source:
starting from 0, the first pass writes 1 where the shifted difference is
at most 0 and the difference is above 0, the second pass writes -1 where
the shifted difference is at least 0 and the difference is below 0.  At
index 0 the shifted column holds NaN, and both NaN comparisons are false
in pandas, which the conjunct 0 < i models. -/
def signalAt (sp lp : ℕ) (closes : List ℚ) (i : ℕ) : ℤ :=
  let pass1 : ℤ :=
    if 0 < i ∧ smaDiff sp lp closes (i - 1) ≤ 0 ∧ 0 < smaDiff sp lp closes i then 1 else 0
  if 0 < i ∧ 0 ≤ smaDiff sp lp closes (i - 1) ∧ smaDiff sp lp closes i < 0 then -1 else pass1

/-- Embedding of the signal column produced by
SMAStrategy.generate_signals on a close-price series already sorted by
timestamp; StrategyOutputManager.standardize_signals keeps the signal
values unchanged, so this is also the standardized output column. -/
def generate_signals (sp lp : ℕ) (closes : List ℚ) : List ℤ :=
  (List.range closes.length).map (signalAt sp lp closes)

/-! ## Helper lemmas -/

/-- Components of one execute_signals step under a filling execute_order. -/
theorem execStep_spec (st : ExecState) (row : SignalRow) :
    (execStep true st row).2 = rowStatus row ∧
    (execStep true st row).1.cash = st.cash + rowCashDelta row ∧
    (execStep true st row).1.pos = st.pos + rowPosDelta row := by
  unfold execStep rowStatus rowCashDelta rowPosDelta
  by_cases hactive : row.signal ≠ 0 ∧ row.has_price = true
  · by_cases hbuy : 0 < row.signal
    · simp [hactive, hbuy, sub_eq_add_neg]
    · simp [hactive, hbuy, sub_eq_add_neg]
  · simp [hactive]

/-- Folding min never rises above its initial accumulator. -/
theorem foldl_min_le_init (l : List ℚ) (a : ℚ) : l.foldl min a ≤ a := by
  induction l generalizing a with
  | nil => exact le_refl a
  | cons b t ih => exact le_trans (ih (min a b)) (min_le_left a b)

/-- Negation turns a fold of min into a fold of max over the negations. -/
theorem neg_foldl_min (l : List ℚ) (a : ℚ) :
    -(l.foldl min a) = (l.map (fun x => -x)).foldl max (-a) := by
  induction l generalizing a with
  | nil => rfl
  | cons b t ih =>
    simp only [List.foldl_cons, List.map_cons]
    rw [ih (min a b), neg_inf]

/-- Folding min over a list bounded below by the accumulator returns the
accumulator. -/
theorem foldl_min_eq_init (l : List ℚ) (a : ℚ) (h : ∀ x ∈ l, a ≤ x) : l.foldl min a = a := by
  induction l generalizing a with
  | nil => rfl
  | cons b t ih =>
    simp only [List.foldl_cons]
    have hab : min a b = a := min_eq_left (h b (by simp))
    rw [hab]
    exact ih a (fun x hx => h x (by simp [hx]))

/-- A fold of max is the accumulator or one of the list elements. -/
theorem foldl_max_mem (l : List ℚ) (a : ℚ) : l.foldl max a = a ∨ l.foldl max a ∈ l := by
  induction l generalizing a with
  | nil => exact Or.inl rfl
  | cons b t ih =>
    simp only [List.foldl_cons]
    rcases ih (max a b) with h | h
    · rcases max_choice a b with hm | hm
      · exact Or.inl (h.trans hm)
      · exact Or.inr (by rw [h, hm]; exact List.mem_cons_self b t)
    · exact Or.inr (List.mem_cons_of_mem b h)

/-- A fold of max bounds the accumulator and every list element. -/
theorem le_foldl_max (l : List ℚ) (a : ℚ) :
    a ≤ l.foldl max a ∧ ∀ x ∈ l, x ≤ l.foldl max a := by
  induction l generalizing a with
  | nil => exact ⟨le_refl a, by simp⟩
  | cons b t ih =>
    obtain ⟨h1, h2⟩ := ih (max a b)
    refine ⟨le_trans (le_max_left a b) h1, ?_⟩
    intro x hx
    rcases List.mem_cons.mp hx with rfl | hx
    · exact le_trans (le_max_right a x) h1
    · exact h2 x hx

/-- Unfolding of the running peak on a cons cell. -/
theorem runningPeak_cons (v : ℚ) (vs : List ℚ) (i : ℕ) :
    runningPeak (v :: vs) i = (vs.take i).foldl max v := by
  simp [runningPeak, List.take_cons]

/-- The drawdown at the first bar is always zero. -/
theorem drawdownAt_zero (v : ℚ) (vs : List ℚ) : drawdownAt (v :: vs) 0 = 0 := by
  simp [drawdownAt, runningPeak_cons]

/-- Entries of a sorted list are monotone in the index. -/
theorem sorted_getElem_le (values : List ℚ) (hmono : values.Pairwise (· ≤ ·)) (a b : ℕ)
    (hab : a ≤ b) (hb : b < values.length) (ha : a < values.length) :
    values[a] ≤ values[b] := by
  rcases Nat.eq_or_lt_of_le hab with rfl | h
  · exact le_refl _
  · exact List.pairwise_iff_getElem.mp hmono a b ha hb h

/-- On a sorted series the running peak at i is the value at i. -/
theorem runningPeak_sorted (values : List ℚ) (hmono : values.Pairwise (· ≤ ·))
    (i : ℕ) (hi : i < values.length) : runningPeak values i = values[i] := by
  have hne : values ≠ [] := List.ne_nil_of_length_pos (Nat.lt_of_le_of_lt (Nat.zero_le i) hi)
  obtain ⟨v, vs, rfl⟩ := List.exists_cons_of_ne_nil hne
  rw [runningPeak_cons]
  have hvs : i ≤ vs.length := by
    simp only [List.length_cons] at hi
    omega
  have hlen : (vs.take i).length = i := by
    simp only [List.length_take]
    omega
  apply le_antisymm
  · rcases foldl_max_mem (vs.take i) v with hm | hm
    · rw [hm]
      exact sorted_getElem_le _ hmono 0 i (Nat.zero_le i) hi
        (Nat.lt_of_le_of_lt (Nat.zero_le i) hi)
    · obtain ⟨j, hj, hjx⟩ := List.mem_iff_getElem.mp hm
      have hji : j < i := by rw [hlen] at hj; exact hj
      have hjvs : j < vs.length := by omega
      have hj1 : j + 1 < (v :: vs).length := by
        simp only [List.length_cons]
        omega
      have hjv : (vs.take i)[j] = vs[j] := List.getElem_take vs
      have hjv2 : vs[j] = (v :: vs)[j + 1] := by simp
      rw [← hjx, hjv, hjv2]
      exact sorted_getElem_le _ hmono (j + 1) i hji hi hj1
  · rcases Nat.eq_zero_or_pos i with rfl | hip
    · simp
    · obtain ⟨k, rfl⟩ : ∃ k, i = k + 1 := ⟨i - 1, by omega⟩
      have hkvs : k < vs.length := by omega
      have hkt : k < (vs.take (k + 1)).length := by rw [hlen]; omega
      have hmem : (v :: vs)[k + 1] ∈ vs.take (k + 1) := by
        have h1 : (vs.take (k + 1))[k] = vs[k] := List.getElem_take vs
        have h2 : (v :: vs)[k + 1] = vs[k] := by simp
        rw [h2, ← h1]
        exact List.getElem_mem _
      exact (le_foldl_max (vs.take (k + 1)) v).2 _ hmem

/-- Reading the signal list at a bar in range yields the per-bar signal. -/
theorem generate_signals_getD (sp lp : ℕ) (closes : List ℚ) (i : ℕ) (hi : i < closes.length) :
    (generate_signals sp lp closes).getD i 0 = signalAt sp lp closes i := by
  rw [generate_signals, List.getD_eq_getElem _ 0 (by simpa using hi)]
  simp

/-- Characterization of signalAt by the two crossing conditions of the
source and the residual zero case. -/
theorem signalAt_cases (sp lp : ℕ) (closes : List ℚ) (i : ℕ) :
    (signalAt sp lp closes i = 1 ↔
      (0 < i ∧ smaDiff sp lp closes (i - 1) ≤ 0 ∧ 0 < smaDiff sp lp closes i)) ∧
    (signalAt sp lp closes i = -1 ↔
      (0 < i ∧ 0 ≤ smaDiff sp lp closes (i - 1) ∧ smaDiff sp lp closes i < 0)) ∧
    (signalAt sp lp closes i = 0 ↔
      (¬(0 < i ∧ smaDiff sp lp closes (i - 1) ≤ 0 ∧ 0 < smaDiff sp lp closes i) ∧
       ¬(0 < i ∧ 0 ≤ smaDiff sp lp closes (i - 1) ∧ smaDiff sp lp closes i < 0))) := by
  by_cases c2 : 0 < i ∧ 0 ≤ smaDiff sp lp closes (i - 1) ∧ smaDiff sp lp closes i < 0
  · have hnc1 : ¬(0 < i ∧ smaDiff sp lp closes (i - 1) ≤ 0 ∧ 0 < smaDiff sp lp closes i) :=
      fun h => absurd h.2.2 (lt_asymm c2.2.2)
    rw [signalAt]
    simp only [if_pos c2]
    refine ⟨?_, ?_, ?_⟩
    · constructor
      · intro h; exact absurd h (by decide)
      · intro h; exact absurd h hnc1
    · simp [c2]
    · constructor
      · intro h; exact absurd h (by decide)
      · intro h; exact absurd c2 h.2
  · by_cases c1 : 0 < i ∧ smaDiff sp lp closes (i - 1) ≤ 0 ∧ 0 < smaDiff sp lp closes i
    · rw [signalAt]
      simp only [if_neg c2, if_pos c1]
      refine ⟨by simp [c1], ?_, ?_⟩
      · constructor
        · intro h; exact absurd h (by decide)
        · intro h; exact absurd h c2
      · constructor
        · intro h; exact absurd h (by decide)
        · intro h; exact absurd c1 h.1
    · rw [signalAt]
      simp only [if_neg c2, if_neg c1]
      refine ⟨?_, ?_, by simp [c1, c2]⟩
      · constructor
        · intro h; exact absurd h (by decide)
        · intro h; exact absurd h c1
      · constructor
        · intro h; exact absurd h (by decide)
        · intro h; exact absurd h c2

/-! ## Claim theorems -/

/-- Claim C1: on every non-empty close series, with a validated window
pair, generate_signals emits exactly one signal per bar; a bar carries
signal 1 exactly when the short-minus-long rolling-mean difference moves
from at most 0 at the previous bar to above 0, and signal -1 exactly when
it moves from at least 0 to below 0 (bar 0, with no previous value,
always carries 0); and on a series whose difference crosses upward
exactly once, at index k, with no downward crossing anywhere, the signal
is 1 at k and 0 at every other index, with no repeated firing on
sustained divergence. -/
theorem c1_sma_crossover (sp lp : ℕ) (closes : List ℚ) (hsp : 0 < sp) (hlt : sp < lp)
    (hne : closes ≠ []) :
    (generate_signals sp lp closes).length = closes.length ∧
    (∀ i, i < closes.length →
      (((generate_signals sp lp closes).getD i 0 = 1) ↔
        (0 < i ∧ smaDiff sp lp closes (i - 1) ≤ 0 ∧ 0 < smaDiff sp lp closes i)) ∧
      (((generate_signals sp lp closes).getD i 0 = -1) ↔
        (0 < i ∧ 0 ≤ smaDiff sp lp closes (i - 1) ∧ smaDiff sp lp closes i < 0))) ∧
    (∀ k, 0 < k → k < closes.length →
      (∀ j, 0 < j → j < closes.length →
        ((smaDiff sp lp closes (j - 1) ≤ 0 ∧ 0 < smaDiff sp lp closes j) ↔ j = k)) →
      (∀ j, 0 < j → j < closes.length →
        ¬(0 ≤ smaDiff sp lp closes (j - 1) ∧ smaDiff sp lp closes j < 0)) →
      ((generate_signals sp lp closes).getD k 0 = 1 ∧
       ∀ j, j < closes.length → j ≠ k → (generate_signals sp lp closes).getD j 0 = 0)) := by
  refine ⟨by simp [generate_signals], ?_, ?_⟩
  · intro i hi
    rw [generate_signals_getD sp lp closes i hi]
    exact ⟨(signalAt_cases sp lp closes i).1, (signalAt_cases sp lp closes i).2.1⟩
  · intro k hk hkn hup hdown
    constructor
    · rw [generate_signals_getD sp lp closes k hkn]
      refine (signalAt_cases sp lp closes k).1.mpr ?_
      obtain ⟨hd1, hd2⟩ := (hup k hk hkn).mpr rfl
      exact ⟨hk, hd1, hd2⟩
    · intro j hj hjk
      rw [generate_signals_getD sp lp closes j hj]
      refine (signalAt_cases sp lp closes j).2.2.mpr ⟨?_, ?_⟩
      · rintro ⟨hj0, hcond⟩
        exact hjk ((hup j hj0 hj).mp hcond)
      · rintro ⟨hj0, hcond⟩
        exact (hdown j hj0 hj) hcond

/-- Claim C1, witness: with short window 1 and long window 2 the close
series 1, 1, 1, 2 crosses upward exactly once at index 3; the emitted
signals are 0, 0, 0, 1. -/
theorem c1_sma_crossover_witness :
    (generate_signals 1 2 [1, 1, 1, 2]).getD 3 0 = 1 ∧
    (generate_signals 1 2 [1, 1, 1, 2]).getD 0 0 = 0 ∧
    (generate_signals 1 2 [1, 1, 1, 2]).getD 1 0 = 0 ∧
    (generate_signals 1 2 [1, 1, 1, 2]).getD 2 0 = 0 := by
  have hd0 : smaDiff 1 2 [1, 1, 1, 2] 0 = 0 := by
    simp only [smaDiff, windowMean]; norm_num
  have hd1 : smaDiff 1 2 [1, 1, 1, 2] 1 = 0 := by
    simp only [smaDiff, windowMean]; norm_num
  have hd2 : smaDiff 1 2 [1, 1, 1, 2] 2 = 0 := by
    simp only [smaDiff, windowMean]; norm_num
  have hd3 : smaDiff 1 2 [1, 1, 1, 2] 3 = 1 / 2 := by
    simp only [smaDiff, windowMean]; norm_num
  have h := c1_sma_crossover 1 2 [1, 1, 1, 2] (by norm_num) (by norm_num) (by simp)
  have hup : ∀ j, 0 < j → j < ([1, 1, 1, 2] : List ℚ).length →
      ((smaDiff 1 2 [1, 1, 1, 2] (j - 1) ≤ 0 ∧ 0 < smaDiff 1 2 [1, 1, 1, 2] j) ↔ j = 3) := by
    intro j hj0 hjn
    have hj : j = 1 ∨ j = 2 ∨ j = 3 := by
      simp only [List.length_cons, List.length_nil] at hjn
      omega
    rcases hj with rfl | rfl | rfl
    · norm_num [hd0, hd1]
    · norm_num [hd1, hd2]
    · norm_num [hd2, hd3]
  have hdown : ∀ j, 0 < j → j < ([1, 1, 1, 2] : List ℚ).length →
      ¬(0 ≤ smaDiff 1 2 [1, 1, 1, 2] (j - 1) ∧ smaDiff 1 2 [1, 1, 1, 2] j < 0) := by
    intro j hj0 hjn
    have hj : j = 1 ∨ j = 2 ∨ j = 3 := by
      simp only [List.length_cons, List.length_nil] at hjn
      omega
    rcases hj with rfl | rfl | rfl
    · norm_num [hd0, hd1]
    · norm_num [hd1, hd2]
    · norm_num [hd2, hd3]
  have hmain := h.2.2 3 (by norm_num) (by norm_num) hup hdown
  refine ⟨hmain.1, ?_, ?_, ?_⟩
  · exact hmain.2 0 (by norm_num) (by norm_num)
  · exact hmain.2 1 (by norm_num) (by norm_num)
  · exact hmain.2 2 (by norm_num) (by norm_num)

/-- Claim C2, counterexample: for a short position of -1 at price 10 with
zero cash, get_portfolio_status reports total_value 10, not the value
cash + position * current_price = -10 stated by the claim. -/
theorem c2_total_value_counterexample :
    (get_portfolio_status ⟨0, -1⟩ 10).total_value = 10 ∧
    (get_portfolio_status ⟨0, -1⟩ 10).total_value ≠ (0 : ℚ) + (-1) * 10 := by
  constructor
  · norm_num [get_portfolio_status]
  · norm_num [get_portfolio_status]

/-- Claim C2, amended: for every account state and every current price the
total portfolio value reported by the executor equals
cash + abs(position) * current_price; this agrees with
cash + position * current_price exactly on non-negative (long or flat)
positions. -/
theorem c2_total_value_amended (st : ExecState) (price : ℚ) :
    (get_portfolio_status st price).total_value = st.cash + |st.pos| * price ∧
    (0 ≤ st.pos → (get_portfolio_status st price).total_value = st.cash + st.pos * price) := by
  refine ⟨rfl, fun h => ?_⟩
  simp [get_portfolio_status, abs_of_nonneg h]

/-- Claim C2, witness of the amended theorem at cash 5, position 3,
price 2. -/
theorem c2_total_value_witness :
    (get_portfolio_status ⟨5, 3⟩ 2).total_value = 5 + |(3 : ℚ)| * 2 ∧
    (get_portfolio_status ⟨5, 3⟩ 2).total_value = 5 + (3 : ℚ) * 2 := by
  have h := c2_total_value_amended ⟨5, 3⟩ 2
  exact ⟨h.1, h.2 (by norm_num)⟩

/-- Claim C3, counterexample: starting from cash 100000, a buy signal
sized 2000 shares at price 100 costs 200000, which exceeds the available
cash, yet execute_signals records the order as executed and leaves the
account with negative cash -100000, instead of rejecting it. -/
theorem c3_no_rejection_counterexample :
    execute_signals true ⟨100000, 0⟩ [⟨1, 2000, true, 100⟩] =
      (⟨-100000, 2000⟩, [ExecStatus.executed]) ∧
    (execute_signals true ⟨100000, 0⟩ [⟨1, 2000, true, 100⟩]).1.cash < 0 := by
  constructor
  · show (execute_signals true ⟨100000, 0⟩ [⟨1, 2000, true, 100⟩]) = _
    norm_num [execute_signals, execStep]
  · norm_num [execute_signals, execStep]

/-- Claim C3, amended: execute_signals applies no validation at all.
Every row whose signal is nonzero and whose timestamp has a price is
recorded as executed (with an execute_order that fills), even when the
quantity is zero or the cost exceeds the available cash, and the other
rows are skipped; cash moves by exactly minus or plus quantity * price
per executed row with no commission and no cash-floor check, so cash may
become negative; validate_execution is never invoked on this path and no
order is ever rejected or partially filled by the base executor itself. -/
theorem c3_no_rejection_amended (st : ExecState) (rows : List SignalRow) :
    (execute_signals true st rows).2 = rows.map rowStatus ∧
    (execute_signals true st rows).1.cash = st.cash + (rows.map rowCashDelta).sum ∧
    (execute_signals true st rows).1.pos = st.pos + (rows.map rowPosDelta).sum := by
  induction rows generalizing st with
  | nil => simp [execute_signals]
  | cons row rest ih =>
    have hstep := execStep_spec st row
    have htail := ih (execStep true st row).1
    refine ⟨?_, ?_, ?_⟩
    · simp only [execute_signals, List.map_cons]
      rw [hstep.1, htail.1]
    · simp only [execute_signals, List.map_cons, List.sum_cons]
      rw [htail.2.1, hstep.2.1]
      ring
    · simp only [execute_signals, List.map_cons, List.sum_cons]
      rw [htail.2.2, hstep.2.2]
      ring

/-- Claim C4, counterexample: a filled buy of 100 shares at price 10 from
cash 5000 leaves cash 4000; with the commission rate 0.001 named by the
claim the post-fill cash would have been 3999, so no commission is
charged. -/
theorem c4_commission_counterexample :
    (execStep true ⟨5000, 0⟩ ⟨1, 100, true, 10⟩).1.cash = 4000 ∧
    (execStep true ⟨5000, 0⟩ ⟨1, 100, true, 10⟩).1.cash ≠
      5000 - 100 * 10 * (1 + 1 / 1000) := by
  constructor
  · norm_num [execStep]
  · norm_num [execStep]

/-- Claim C4, amended: on every executed fill the executor updates cash by
exactly quantity * price, subtracted on a buy and added on a sell, with no
commission term, and updates the position by plus quantity on a buy and
minus quantity on a sell. -/
theorem c4_fill_update_amended (st : ExecState) (row : SignalRow)
    (hsig : row.signal ≠ 0) (hp : row.has_price = true) :
    (execStep true st row).2 = ExecStatus.executed ∧
    (0 < row.signal →
      (execStep true st row).1 = ⟨st.cash - |row.pos| * row.price, st.pos + |row.pos|⟩) ∧
    (row.signal < 0 →
      (execStep true st row).1 = ⟨st.cash + |row.pos| * row.price, st.pos - |row.pos|⟩) := by
  refine ⟨?_, fun hbuy => ?_, fun hsell => ?_⟩
  · by_cases hbuy : 0 < row.signal <;> simp [execStep, hsig, hp, hbuy]
  · simp [execStep, hsig, hp, hbuy]
  · have hnot : ¬ 0 < row.signal := by omega
    simp [execStep, hsig, hp, hnot]

/-- Claim C4, witness of the amended theorem at a concrete buy fill. -/
theorem c4_fill_update_witness :
    (execStep true ⟨5000, 0⟩ ⟨1, 100, true, 10⟩).2 = ExecStatus.executed ∧
    (execStep true ⟨5000, 0⟩ ⟨1, 100, true, 10⟩).1 =
      ⟨5000 - |(100 : ℚ)| * 10, 0 + |(100 : ℚ)|⟩ := by
  have h := c4_fill_update_amended ⟨5000, 0⟩ ⟨1, 100, true, 10⟩ (by decide) rfl
  exact ⟨h.1, h.2.1 (by decide)⟩

/-- Claim C5: check_stop_loss_take_profit returns none with reason
no_position for a zero position; otherwise the directional return rate
decides the action: stop loss exactly when it is at most minus the
stop-loss threshold, take profit exactly when the stop-loss condition
fails and it is at least the take-profit threshold, none otherwise; with
both thresholds zero and zero return rate the stop-loss branch wins. -/
theorem c5_stop_loss_take_profit (sl tp entry current pos : ℚ) (hentry : 0 < entry) :
    (pos = 0 →
      check_stop_loss_take_profit sl tp entry current pos =
        (SLAction.noneAction, "no_position")) ∧
    (pos ≠ 0 →
      (let rr := if 0 < pos then (current - entry) / entry else (entry - current) / entry
      ((check_stop_loss_take_profit sl tp entry current pos).1 = SLAction.stopLoss ↔
        rr ≤ -sl) ∧
      ((check_stop_loss_take_profit sl tp entry current pos).1 = SLAction.takeProfit ↔
        (¬ rr ≤ -sl ∧ tp ≤ rr)) ∧
      ((check_stop_loss_take_profit sl tp entry current pos).1 = SLAction.noneAction ↔
        (¬ rr ≤ -sl ∧ ¬ tp ≤ rr)) ∧
      (sl = 0 → tp = 0 → rr = 0 →
        (check_stop_loss_take_profit sl tp entry current pos).1 = SLAction.stopLoss))) := by
  constructor
  · intro h
    simp [check_stop_loss_take_profit, h]
  · intro hpos
    simp only [check_stop_loss_take_profit, if_neg hpos]
    set rr := if 0 < pos then (current - entry) / entry else (entry - current) / entry with hrr
    by_cases hstop : rr ≤ -sl
    · simp [hstop]
    · by_cases htake : tp ≤ rr
      · refine ⟨by simp [hstop, htake], by simp [hstop, htake], by simp [hstop, htake], ?_⟩
        intro hsl0 htp0 hrr0
        exact absurd (by rw [hrr0, hsl0]; norm_num) hstop
      · constructor
        · simp [hstop, htake]
        · refine ⟨by simp [hstop, htake], by simp [hstop, htake], ?_⟩
          intro hsl0 htp0 hrr0
          exact absurd (by rw [hrr0, hsl0]; norm_num) hstop

/-- Claim C5, witness: a long position entered at 100 now at 94 with a 5
percent stop loss and 15 percent take profit takes the stop-loss branch. -/
theorem c5_stop_loss_take_profit_witness :
    (check_stop_loss_take_profit (1/20) (3/20) 100 94 100).1 = SLAction.stopLoss := by
  have h := c5_stop_loss_take_profit (1/20) (3/20) 100 94 100 (by norm_num)
  have h2 := (h.2 (by norm_num)).1
  rw [h2]
  norm_num

/-- Claim C10: check_position_limits divides the proposed position by the
portfolio value without a guard, so every call with portfolio value zero
raises ZeroDivisionError instead of returning a verdict, and every call
with nonzero portfolio value returns a verdict normally. -/
theorem c10_position_limits_division (lims : PositionLimits) (proposed pv : ℚ) :
    (pv = 0 →
      check_position_limits lims proposed pv = Except.error "ZeroDivisionError") ∧
    (pv ≠ 0 → ∃ r, check_position_limits lims proposed pv = Except.ok r) := by
  constructor
  · intro h0
    simp [check_position_limits, pyDiv, h0, Except.bind]
  · intro hne
    by_cases hpct : lims.max_position_pct.getD 1 < |proposed| / pv
    · refine ⟨(false, "exceeds max position pct"), ?_⟩
      simp [check_position_limits, pyDiv, hne, hpct]
    · refine ⟨if lims.max_position.getD pv < |proposed| then
        (false, "exceeds max position amount") else (true, "position_within_limits"), ?_⟩
      simp [check_position_limits, pyDiv, hne, hpct]

/-- Claim C10, witness: with no configured limits, portfolio value 0
raises ZeroDivisionError and portfolio value 1 returns a verdict. -/
theorem c10_position_limits_division_witness :
    check_position_limits ⟨none, none⟩ 5 0 = Except.error "ZeroDivisionError" ∧
    ∃ r, check_position_limits ⟨none, none⟩ 5 1 = Except.ok r := by
  constructor
  · exact (c10_position_limits_division ⟨none, none⟩ 5 0).1 rfl
  · exact (c10_position_limits_division ⟨none, none⟩ 5 1).2 (by norm_num)

/-- Claim C8: construction of an SMAStrategy raises exactly when the
config is missing short_period or long_period, one of them is not a
positive integer, or short_period is not strictly below long_period;
equivalently, validation succeeds exactly when both keys hold positive
integers in strictly increasing order. -/
theorem c8_validate_config (cfg : SMAConfig) :
    sma_validate_config cfg = Except.ok () ↔
      ∃ s l : ℤ, cfg.short_period = some (ConfigVal.intv s) ∧
        cfg.long_period = some (ConfigVal.intv l) ∧ 0 < s ∧ 0 < l ∧ s < l := by
  obtain ⟨sp, lp⟩ := cfg
  constructor
  · intro h
    match sp, lp with
    | none, _ => simp [sma_validate_config] at h
    | some v, none => cases v <;> simp [sma_validate_config] at h
    | some ConfigVal.otherv, some w => simp [sma_validate_config] at h
    | some (ConfigVal.intv s), some ConfigVal.otherv =>
      by_cases hs : s ≤ 0 <;> simp [sma_validate_config, hs] at h
    | some (ConfigVal.intv s), some (ConfigVal.intv l) =>
      refine ⟨s, l, rfl, rfl, ?_, ?_, ?_⟩ <;>
      · by_cases hs : s ≤ 0
        · simp [sma_validate_config, hs] at h
        · by_cases hl : l ≤ 0
          · simp [sma_validate_config, hs, hl] at h
          · by_cases hsl : l ≤ s
            · simp [sma_validate_config, hs, hl, hsl] at h
            · omega
  · rintro ⟨s, l, hs, hl, hspos, hlpos, hsl⟩
    subst hs; subst hl
    have h1 : ¬ s ≤ 0 := by omega
    have h2 : ¬ l ≤ 0 := by omega
    have h3 : ¬ l ≤ s := by omega
    simp [sma_validate_config, h1, h2, h3]

/-- Claim C8, witness: the config with short period 20 and long period 50
passes validation, and the config missing long_period does not. -/
theorem c8_validate_config_witness :
    sma_validate_config ⟨some (ConfigVal.intv 20), some (ConfigVal.intv 50)⟩ =
      Except.ok () ∧
    sma_validate_config ⟨some (ConfigVal.intv 20), none⟩ ≠ Except.ok () := by
  constructor
  · exact (c8_validate_config ⟨some (ConfigVal.intv 20), some (ConfigVal.intv 50)⟩).2
      ⟨20, 50, rfl, rfl, by norm_num, by norm_num, by norm_num⟩
  · intro h
    obtain ⟨s, l, hs, hl, _⟩ :=
      (c8_validate_config ⟨some (ConfigVal.intv 20), none⟩).1 h
    exact Option.noConfusion hl

/-- Claim C6, counterexample: on the constant returns series 1, 1, 1 the
Sharpe computation returns the plain float 0.0, not a not-available
marker distinct from 0; the genuinely zero-Sharpe non-constant series
0, 1/6300 (whose mean equals the per-day risk-free rate 0.02 / 252)
returns the very same value 0.0, so the two cases are indistinguishable. -/
theorem c6_sharpe_zero_variance_counterexample :
    calculate_sharpe [1, 1, 1] (1 / 50) = some 0 ∧
    calculate_sharpe [0, 1 / 6300] (1 / 50) = some 0 := by
  constructor
  · rw [ calculate_sharpe, if_pos]
    exact Or.inr (by norm_num [sampleVar, listMean])
  · rw [ calculate_sharpe, if_neg]
    · have hv : sampleVar [0, 1 / 6300] = some (1 / 79380000) := by
        norm_num [sampleVar, listMean]
      have hm : listMean (([0, (1 : ℚ) / 6300]).map (fun r => r - (1 / 50) / 252)) = 0 := by
        norm_num [listMean]
      rw [hv, Option.map_some', hm]
      norm_num
    · rintro (h | h)
      · simp at h
      · have hv : sampleVar [0, 1 / 6300] = some (1 / 79380000) := by
          norm_num [sampleVar, listMean]
        rw [hv] at h
        have h2 := Option.some.inj h
        norm_num at h2

/-- Claim C6, amended: calculate_sharpe_ratio never raises (it is a total
function of the series), but for an empty or constant series of length at
least 2 it returns the plain float 0.0 with no not-available marker, a
value indistinguishable from a genuine zero Sharpe; a constant series of
length 1 instead propagates the NaN standard deviation. -/
theorem c6_sharpe_zero_variance_amended (c rf : ℚ) (n : ℕ) (hn : 2 ≤ n) :
    calculate_sharpe (List.replicate n c) rf = some 0 ∧
    calculate_sharpe [] rf = some 0 ∧
    calculate_sharpe [c] rf = none := by
  refine ⟨?_, ?_, ?_⟩
  · rw [ calculate_sharpe, if_pos]
    refine Or.inr ?_
    have hlen : ¬ (List.replicate n c).length ≤ 1 := by
      rw [List.length_replicate]; omega
    have hn0 : (n : ℚ) ≠ 0 := by
      have hpos : 0 < n := by omega
      exact_mod_cast hpos.ne'
    have hmean : listMean (List.replicate n c) = c := by
      rw [listMean, List.sum_replicate, List.length_replicate, nsmul_eq_mul]
      field_simp
    rw [sampleVar, if_neg hlen, hmean]
    have hmap : (List.replicate n c).map (fun x => (x - c) ^ 2) = List.replicate n 0 := by
      rw [List.map_replicate]
      norm_num
    rw [hmap, List.sum_replicate]
    simp
  · rw [ calculate_sharpe, if_pos]
    exact Or.inl (by simp)
  · rw [ calculate_sharpe, if_neg]
    · have hv : sampleVar [c] = none := by rw [sampleVar]; simp
      rw [hv, Option.map_none']
    · rintro (h | h)
      · simp at h
      · rw [sampleVar] at h
        simp at h

/-- Claim C6, witness of the amended theorem for the constant series of
three sevens. -/
theorem c6_sharpe_zero_variance_witness :
    calculate_sharpe (List.replicate 3 7) (1 / 50) = some 0 ∧
    calculate_sharpe [7] (1 / 50) = none := by
  have h := c6_sharpe_zero_variance_amended 7 (1 / 50) 3 (by norm_num)
  exact ⟨h.1, h.2.2⟩

/-- Claim C7: for every value series of positive values,
_calculate_max_drawdown equals the maximum over t of
(peak_up_to_t - value_t) / peak_up_to_t, is non-negative, returns 0 for
the empty series, and returns exactly 0 on every monotonically
non-decreasing series. -/
theorem c7_max_drawdown (values : List ℚ) (hpos : ∀ x ∈ values, 0 < x) :
    calculate_max_drawdown values = max_drawdown_spec values ∧
    0 ≤ calculate_max_drawdown values ∧
    (values = [] → calculate_max_drawdown values = 0) ∧
    (values.Pairwise (· ≤ ·) → calculate_max_drawdown values = 0) := by
  cases values with
  | nil => exact ⟨rfl, le_refl 0, fun _ => rfl, fun _ => rfl⟩
  | cons v vs =>
    have h0 : drawdownAt (v :: vs) 0 = 0 := drawdownAt_zero v vs
    have hcalc : calculate_max_drawdown (v :: vs) =
        |(((List.range (v :: vs).length).map (drawdownAt (v :: vs))).foldl min
          (drawdownAt (v :: vs) 0))| := rfl
    have hm_nonpos :
        ((List.range (v :: vs).length).map (drawdownAt (v :: vs))).foldl min
          (drawdownAt (v :: vs) 0) ≤ 0 := by
      rw [← h0]
      exact foldl_min_le_init _ _
    refine ⟨?_, ?_, ?_, ?_⟩
    · have hs : (fun i => (runningPeak (v :: vs) i - (v :: vs).getD i 0) /
          runningPeak (v :: vs) i) = fun i => -(drawdownAt (v :: vs) i) := by
        funext i
        rw [drawdownAt, ← neg_div, neg_sub]
      have hspec : max_drawdown_spec (v :: vs) =
          ((List.range (v :: vs).length).map
            (fun i => -(drawdownAt (v :: vs) i))).foldl max (-(drawdownAt (v :: vs) 0)) := by
        rw [max_drawdown_spec]
        rw [show ((runningPeak (v :: vs) 0 - (v :: vs).getD 0 0) / runningPeak (v :: vs) 0) =
          -(drawdownAt (v :: vs) 0) from by rw [drawdownAt, ← neg_div, neg_sub]]
        rw [show ((List.range (v :: vs).length).map
            (fun i => (runningPeak (v :: vs) i - (v :: vs).getD i 0) / runningPeak (v :: vs) i)) =
          ((List.range (v :: vs).length).map (fun i => -(drawdownAt (v :: vs) i))) from by
            rw [hs]]
      rw [hcalc, hspec, abs_of_nonpos hm_nonpos]
      rw [show ((List.range (v :: vs).length).map (fun i => -(drawdownAt (v :: vs) i))) =
        (((List.range (v :: vs).length).map (drawdownAt (v :: vs))).map (fun x => -x)) from by
          rw [List.map_map]; rfl]
      exact neg_foldl_min _ _
    · rw [hcalc]
      exact abs_nonneg _
    · intro h
      exact absurd h (List.cons_ne_nil v vs)
    · intro hmono
      have hdd : ∀ i < (v :: vs).length, drawdownAt (v :: vs) i = 0 := by
        intro i hi
        have hpeak : runningPeak (v :: vs) i = (v :: vs)[i] := runningPeak_sorted _ hmono i hi
        rw [drawdownAt, hpeak, List.getD_eq_getElem _ 0 hi, sub_self, zero_div]
      have hall : ∀ x ∈ (List.range (v :: vs).length).map (drawdownAt (v :: vs)),
          drawdownAt (v :: vs) 0 ≤ x := by
        intro x hx
        obtain ⟨i, hir, rfl⟩ := List.mem_map.mp hx
        rw [h0, hdd i (List.mem_range.mp hir)]
      rw [hcalc, foldl_min_eq_init _ _ hall, h0, abs_zero]

/-- Claim C7, witness: the non-decreasing positive series 1, 2, 2 has
max drawdown 0, equal to the spec formula. -/
theorem c7_max_drawdown_witness :
    calculate_max_drawdown [1, 2, 2] = max_drawdown_spec [1, 2, 2] ∧
    calculate_max_drawdown [1, 2, 2] = 0 := by
  have h := c7_max_drawdown [1, 2, 2] (by norm_num)
  exact ⟨h.1, h.2.2.2 (by decide)⟩

/-- Claim C9: for every non-empty portfolio history,
BaseRiskManager.get_risk_metrics raises instead of returning the metrics
dict, because calculate_sharpe_ratio is defined without a self parameter:
the bound call self.calculate_sharpe_ratio(returns) passes the risk
manager instance as the returns argument and evaluating returns.empty on
it raises AttributeError. -/
theorem c9_get_risk_metrics_raises (history : List ℚ) (h : history ≠ []) :
    get_risk_metrics history =
      Except.error "AttributeError: BaseRiskManager object has no attribute empty" := by
  have hne : ¬ (history.isEmpty = true) := by simp [h]
  rw [get_risk_metrics, if_neg hne]
  rfl

/-- Claim C9, witness on the two-bar history 1, 2. -/
theorem c9_get_risk_metrics_raises_witness :
    get_risk_metrics [1, 2] =
      Except.error "AttributeError: BaseRiskManager object has no attribute empty" :=
  c9_get_risk_metrics_raises [1, 2] (by simp)

end QProject
